import Mathlib

/-!
Verification development for pyminiply, a reader for PLY mesh files.

The Python wrapper (`src/pyminiply/reader.py`) is embedded directly.  The
native parsing core (`pyminiply/_wrapper.pyx` plus `miniply/miniply.cpp`)
is not part of the source tree, so it is modelled from the specification:
a schema-driven scalar decoder, an element stream reader, a semantic
extractor, a fan triangulator and an output assembler.  Numeric values are
modelled exactly: integer scalars as `Int` with two's-complement
interpretation, and IEEE binary float bit patterns by their exact rational
value (non-finite exponent patterns are mapped by the same normal-number
formula; no property below depends on them).
-/

namespace Pyminiply

/-- Modelled from the spec: the scalar type tags a PLY header may declare
for a property (the missing core's type enumeration, spec data model). -/
inductive ScalarType
  | int8 | uint8 | int16 | uint16 | int32 | uint32 | float32 | float64
deriving DecidableEq

/-- Modelled from the spec: fixed byte width of each scalar type in binary
mode. -/
def ScalarType.byteWidth : ScalarType → Nat
  | .int8 => 1
  | .uint8 => 1
  | .int16 => 2
  | .uint16 => 2
  | .int32 => 4
  | .uint32 => 4
  | .float32 => 4
  | .float64 => 8

/-- Signed integer types (two's-complement interpretation). -/
def ScalarType.isSigned : ScalarType → Bool
  | .int8 => true
  | .int16 => true
  | .int32 => true
  | _ => false

/-- Floating-point types. -/
def ScalarType.isFloat : ScalarType → Bool
  | .float32 => true
  | .float64 => true
  | _ => false

/-- Little-endian value of a byte list (least significant byte first). -/
def fromBytesLE : List Nat → Nat
  | [] => 0
  | b :: bs => b + 256 * fromBytesLE bs

/-- Little-endian byte list of width `w` for value `v`. -/
def toBytesLE : Nat → Nat → List Nat
  | 0, _ => []
  | w + 1, v => v % 256 :: toBytesLE w (v / 256)

theorem length_toBytesLE (w v : Nat) : (toBytesLE w v).length = w := by
  induction w generalizing v with
  | zero => rfl
  | succ w ih => simp [toBytesLE, ih]

theorem fromBytesLE_toBytesLE (w v : Nat) (h : v < 256 ^ w) :
    fromBytesLE (toBytesLE w v) = v := by
  induction w generalizing v with
  | zero =>
    simp only [pow_zero, Nat.lt_one_iff] at h
    simp [h, toBytesLE, fromBytesLE]
  | succ w ih =>
    have hlt : v / 256 < 256 ^ w := by
      rw [Nat.div_lt_iff_lt_mul (by norm_num)]
      calc v < 256 ^ (w + 1) := h
        _ = 256 ^ w * 256 := by ring
    simp [toBytesLE, fromBytesLE, ih (v / 256) hlt]
    omega

/-- Big-endian byte list (most significant byte first). -/
def toBytesBE (w v : Nat) : List Nat :=
  (toBytesLE w v).reverse

/-- Big-endian value of a byte list. -/
def fromBytesBE (bs : List Nat) : Nat :=
  fromBytesLE bs.reverse

theorem fromBytesBE_toBytesBE (w v : Nat) (h : v < 256 ^ w) :
    fromBytesBE (toBytesBE w v) = v := by
  simp [fromBytesBE, toBytesBE, fromBytesLE_toBytesLE w v h]

/-- Modelled from the spec: two's-complement integer value of a `w`-byte
bit pattern under scalar type `ty` (the missing core's integer decoding). -/
def intValOf (ty : ScalarType) (p : Nat) : Int :=
  let m := 2 ^ (8 * ty.byteWidth)
  let q := p % m
  if ty.isSigned ∧ m / 2 ≤ q then (q : Int) - m else (q : Int)

/-- Exponent/mantissa decomposition of an IEEE bit pattern: the value is
`fst * 2 ^ snd` exactly.  Non-finite exponent patterns fall under the same
normal-number formula (see module docstring). -/
def floatMK (expBits mantBits : Nat) (p : Nat) : Int × Int :=
  let mant := p % 2 ^ mantBits
  let e := p / 2 ^ mantBits % 2 ^ expBits
  let sgn : Int := if p / 2 ^ (mantBits + expBits) % 2 = 1 then -1 else 1
  let bias : Int := 2 ^ (expBits - 1) - 1
  if e = 0 then (sgn * mant, 1 - bias - mantBits)
  else (sgn * (2 ^ mantBits + mant), (e : Int) - bias - mantBits)

/-- Exact rational value of a dyadic decomposition `(m, k)`, namely
`m * 2 ^ k`. -/
def dyadicVal (mk : Int × Int) : ℚ :=
  (mk.1 : ℚ) * (2 : ℚ) ^ mk.2

/-- Modelled from the spec: exact numeric value of a bit pattern under a
scalar type (the missing core's scalar interpretation). -/
def valueOf (ty : ScalarType) (p : Nat) : ℚ :=
  match ty with
  | .float32 => dyadicVal (floatMK 8 23 p)
  | .float64 => dyadicVal (floatMK 11 52 p)
  | _ => (intValOf ty p : ℚ)

/-- Modelled from the spec: one whitespace-delimited ASCII token, already
lexed to its numeric literal form (`int` for an integer literal, `dec` for
a decimal literal `mantissa * 10 ^ exp10`). -/
inductive Token
  | int (v : Int)
  | dec (mantissa : Int) (exp10 : Int)
deriving DecidableEq

/-- Exact rational value of a token. -/
def Token.val : Token → ℚ
  | .int v => (v : ℚ)
  | .dec m e => (m : ℚ) * (10 : ℚ) ^ e

/-- Integer reading of a token; `none` when the token is not an integer
literal (the ASCII integer grammar rejects decimal literals). -/
def Token.asInt : Token → Option Int
  | .int v => some v
  | .dec _ _ => none

/-- Modelled from the spec: a property declared in a PLY header, either a
fixed scalar or a variable-length list with a count type and an item
type. -/
inductive PropertyDescriptor
  | scalar (name : String) (ty : ScalarType)
  | list (name : String) (countType itemType : ScalarType)
deriving DecidableEq

/-- Declared name of a property. -/
def PropertyDescriptor.pname : PropertyDescriptor → String
  | .scalar n _ => n
  | .list n _ _ => n

/-- Whether a property is list-kinded. -/
def PropertyDescriptor.isListKind : PropertyDescriptor → Bool
  | .scalar _ _ => false
  | .list _ _ _ => true

/-- Modelled from the spec: one element declaration of a PLY header, a
named counted group of rows with an ordered property list. -/
structure PlyElement where
  name : String
  count : Nat
  properties : List PropertyDescriptor
deriving DecidableEq

/-- Modelled from the spec: the data section of a PLY file in its declared
encoding — raw bytes for binary (with an endianness flag, `true` for
little-endian), or a lexed token stream for ASCII. -/
inductive Data
  | bin (isLE : Bool) (bytes : List Nat)
  | asc (tokens : List Token)
deriving DecidableEq

/-- Modelled from the spec: a PLY file after header parsing — the declared
element schema plus the data section in the declared encoding. -/
structure PlyFile where
  elements : List PlyElement
  data : Data
deriving DecidableEq

/-- Reads `w` raw bytes, failing (truncation error) when fewer remain. -/
def readBytes (w : Nat) (bs : List Nat) : Option (List Nat × List Nat) :=
  if w ≤ bs.length then some (bs.take w, bs.drop w) else none

/-- Modelled from the spec: decode one scalar of type `ty` at the cursor,
advancing it.  Binary mode reads exactly the fixed width in the declared
endianness; ASCII mode takes the next token and parses it under the
type's numeric grammar (failing on a decimal literal for an integer
type). -/
def decodeScalar (ty : ScalarType) : Data → Option (ℚ × Data)
  | .bin isLE bs =>
    (readBytes ty.byteWidth bs).map fun cr =>
      (valueOf ty (if isLE then fromBytesLE cr.1 else fromBytesBE cr.1), .bin isLE cr.2)
  | .asc [] => none
  | .asc (t :: ts) =>
    if ty.isFloat then some (t.val, .asc ts)
    else (t.asInt).map fun v => ((v : ℚ), .asc ts)

/-- Modelled from the spec: decode `n` list items of type `ty`. -/
def decodeItems (ty : ScalarType) : Nat → Data → Option (List ℚ × Data)
  | 0, d => some ([], d)
  | n + 1, d => do
    let (v, d₁) ← decodeScalar ty d
    let (vs, d₂) ← decodeItems ty n d₁
    pure (v :: vs, d₂)

/-- One decoded field of a row: a scalar value or a variable-length
list. -/
inductive Field
  | scalar (q : ℚ)
  | flist (vs : List ℚ)
deriving DecidableEq

/-- A decoded element row: the fields tagged by property name, in declared
order. -/
abbrev Row : Type := List (String × Field)

/-- Modelled from the spec: decode one property of a row — a scalar
directly, or for a list property the count first (truncated to a
non-negative integer) and then that many items. -/
def decodeProp : PropertyDescriptor → Data → Option ((String × Field) × Data)
  | .scalar n ty, d =>
    (decodeScalar ty d).map fun vd => ((n, .scalar vd.1), vd.2)
  | .list n cty ity, d => do
    let (c, d₁) ← decodeScalar cty d
    let (vs, d₂) ← decodeItems ity (Int.toNat ⌊c⌋) d₁
    pure ((n, .flist vs), d₂)

/-- Modelled from the spec: decode one element row, property by property
in declared order. -/
def decodeRow : List PropertyDescriptor → Data → Option (Row × Data)
  | [], d => some ([], d)
  | p :: ps, d => do
    let (f, d₁) ← decodeProp p d
    let (r, d₂) ← decodeRow ps d₁
    pure (f :: r, d₂)

/-- Modelled from the spec: decode exactly `n` rows of an element. -/
def decodeRows : Nat → List PropertyDescriptor → Data → Option (List Row × Data)
  | 0, _, d => some ([], d)
  | n + 1, props, d => do
    let (r, d₁) ← decodeRow props d
    let (rs, d₂) ← decodeRows n props d₁
    pure (r :: rs, d₂)

/-- Modelled from the spec: the element stream reader — decode every
declared element in schema order, yielding the rows grouped under each
element's name. -/
def decodeElems : List PlyElement → Data → Option (List (String × List Row) × Data)
  | [], d => some ([], d)
  | e :: es, d => do
    let (rs, d₁) ← decodeRows e.count e.properties d
    let (rest, d₂) ← decodeElems es d₁
    pure ((e.name, rs) :: rest, d₂)

/-- First field of a row carrying the given property name, when it is a
scalar. -/
def getScalarField : Row → String → Option ℚ
  | [], _ => none
  | (n, f) :: r, nm =>
    if n == nm then
      match f with
      | .scalar q => some q
      | .flist _ => none
    else getScalarField r nm

/-- First field of a row carrying the given property name, when it is a
list. -/
def getListField : Row → String → Option (List ℚ)
  | [], _ => none
  | (n, f) :: r, nm =>
    if n == nm then
      match f with
      | .scalar _ => none
      | .flist vs => some vs
    else getListField r nm

/-- Modelled from the spec: semantic extraction of the position channel of
one vertex row (property names `x`, `y`, `z`). -/
def posOf (r : Row) : Option (ℚ × ℚ × ℚ) := do
  let x ← getScalarField r "x"
  let y ← getScalarField r "y"
  let z ← getScalarField r "z"
  pure (x, y, z)

/-- Modelled from the spec: semantic extraction of the normal channel of
one vertex row (property names `nx`, `ny`, `nz`). -/
def normalOf (r : Row) : Option (ℚ × ℚ × ℚ) := do
  let x ← getScalarField r "nx"
  let y ← getScalarField r "ny"
  let z ← getScalarField r "nz"
  pure (x, y, z)

/-- Modelled from the spec: semantic extraction of the UV channel of one
vertex row (property names `u`,`v`, falling back to `s`,`t`). -/
def uvOf (r : Row) : Option (ℚ × ℚ) :=
  (do
    let u ← getScalarField r "u"
    let v ← getScalarField r "v"
    pure (u, v)) <|>
  (do
    let s ← getScalarField r "s"
    let t ← getScalarField r "t"
    pure (s, t))

/-- Modelled from the spec: semantic extraction of the color channel of
one vertex row (property names `red`, `green`, `blue`). -/
def colorOf (r : Row) : Option (ℚ × ℚ × ℚ) := do
  let r' ← getScalarField r "red"
  let g ← getScalarField r "green"
  let b ← getScalarField r "blue"
  pure (r', g, b)

/-- Modelled from the spec: semantic extraction of the vertex-index list
of one face row (property names `vertex_indices`, falling back to
`vertex_index`). -/
def faceListOf (r : Row) : Option (List ℚ) :=
  getListField r "vertex_indices" <|> getListField r "vertex_index"

/-- Fan triangulation helper: triangles `(v0, prev, v)` for successive
list entries. -/
def fanFrom (v0 : α) : α → List α → List (α × α × α)
  | _, [] => []
  | prev, v :: rest => (v0, prev, v) :: fanFrom v0 v rest

/-- Modelled from the spec: the triangulator — a face with exactly three
indices is emitted unchanged; a face with `k > 3` indices becomes `k - 2`
triangles fanned from its first vertex; a face with fewer than three
indices is skipped (the compatibility policy). -/
def fanTriangulate : List α → List (α × α × α)
  | v0 :: v1 :: rest => fanFrom v0 v1 rest
  | _ => []

/-- Modelled from the spec: triangles of all faces concatenated in
original face order. -/
def triangulateAll : List (List α) → List (α × α × α)
  | [] => []
  | f :: fs => fanTriangulate f ++ triangulateAll fs

/-- Modelled from the spec: narrowing of a decoded index value to a
32-bit signed integer, truncating (two's-complement wrap). -/
def wrapInt32 (q : ℚ) : Int :=
  (⌊q⌋ + 2 ^ 31) % 2 ^ 32 - 2 ^ 31

/-- Modelled from the spec: narrowing of a decoded color value to an
unsigned 8-bit integer, truncating. -/
def wrapUInt8 (q : ℚ) : Nat :=
  (⌊q⌋ % 256).toNat

/-- Modelled from the spec: the five output arrays — positions (float32
N×3, held as exact rationals), triangle indices (int32 M×3), normals
(float32 N×3), UV (float32 N×2) and color (uint8 N×3).  Row type encodes
the fixed column width and dtype of each array. -/
structure PlyOutput where
  vertices : List (ℚ × ℚ × ℚ)
  indices : List (Int × Int × Int)
  normals : List (ℚ × ℚ × ℚ)
  uv : List (ℚ × ℚ)
  color : List (Nat × Nat × Nat)
deriving DecidableEq

/-- The three channel request flags of `read`. -/
structure Flags where
  read_normals : Bool
  read_uv : Bool
  read_color : Bool
deriving DecidableEq

/-- Modelled from the spec: the output assembler — positions, indices and
the optionally requested channels packaged into fixed-shape arrays.  A
channel whose flag is off, or absent from the file, contributes zero
rows.  Disabled channels were still decoded (the decode phase below takes
no flags); they are only discarded here. -/
def assemble (fl : Flags) (elems : List (String × List Row)) : PlyOutput :=
  let vrows := (elems.lookup "vertex").getD []
  let frows := (elems.lookup "face").getD []
  let tris := triangulateAll (frows.filterMap faceListOf)
  { vertices := vrows.filterMap posOf
    indices := tris.map fun t => (wrapInt32 t.1, wrapInt32 t.2.1, wrapInt32 t.2.2)
    normals := if fl.read_normals then vrows.filterMap normalOf else []
    uv := if fl.read_uv then vrows.filterMap uvOf else []
    color :=
      if fl.read_color then
        (vrows.filterMap colorOf).map fun c => (wrapUInt8 c.1, wrapUInt8 c.2.1, wrapUInt8 c.2.2)
      else [] }

/-- Modelled from the spec: the missing native core `load_ply`
(`pyminiply/_wrapper.pyx` plus `miniply/miniply.cpp`): decode the whole
data section under the declared schema — independently of the flags, so
the cursor advances identically for every flag combination — then
assemble the requested channels.  `none` is a terminal decode failure
(truncation or malformed data). -/
def load_ply (f : PlyFile) (fl : Flags) : Option PlyOutput := do
  let (elems, _) ← decodeElems f.elements f.data
  pure (assemble fl elems)

/-! Embedding of `src/pyminiply/reader.py` (the wrapper layer). -/

/-- The filename argument accepted by `read`: a Python `str`, or a
`pathlib.Path` carrying the string that `str()` renders it to. -/
inductive PyPathArg
  | str (s : String)
  | path (toStr : String)
deriving DecidableEq

/-- Python `str()` applied to the filename argument (`reader.py` line
163). -/
def pyStr : PyPathArg → String
  | .str s => s
  | .path s => s

/-- The Python exceptions the embedded wrapper functions can raise. -/
inductive PyError
  | fileNotFound (msg : String)
  | runtimeError (msg : String)
deriving DecidableEq

/-- The five arrays as `reader.py` receives them from the native
`load_ply` binding.  `vertices` and `indices` are `Option`-typed because
`read_as_mesh` guards them with `is None` checks. -/
structure NpArrays where
  vertices : Option (List (ℚ × ℚ × ℚ))
  indices : Option (List (Int × Int × Int))
  normals : List (ℚ × ℚ × ℚ)
  uv : List (ℚ × ℚ)
  color : List (Nat × Nat × Nat)
deriving DecidableEq

/-- Embedding of `reader.read`: convert the filename with `str()`, check
`os.path.isfile`, raise `FileNotFoundError` when the check fails, and
otherwise hand the string to the native `load_ply` binding.  The binding
and the filesystem predicate are parameters, so every theorem below
quantifies over them. -/
def read (load_ply : String → Bool → Bool → Bool → Except PyError NpArrays)
    (isfile : String → Bool) (filename : PyPathArg)
    (read_normals read_uv read_color : Bool) : Except PyError NpArrays :=
  let fn := pyStr filename
  if isfile fn then load_ply fn read_normals read_uv read_color
  else .error (.fileNotFound ("Invalid file or unable to locate \"" ++ fn ++ "\""))

/-- The per-point attributes a PyVista mesh can carry after
`read_as_mesh`: the keys `Normals`, `TCoords` and `RGB` of
`mesh.point_data`. -/
structure PointData where
  normals : Option (List (ℚ × ℚ × ℚ))
  tcoords : Option (List (ℚ × ℚ))
  rgb : Option (List (Nat × Nat × Nat))
deriving DecidableEq

/-- Point data with no attributes attached. -/
def PointData.empty : PointData := ⟨none, none, none⟩

/-- The mesh object `read_as_mesh` returns: a `pyvista.PointSet` or a
`pyvista.PolyData`. -/
inductive PvMesh
  | pointSet (points : List (ℚ × ℚ × ℚ)) (pd : PointData)
  | polyData (points : List (ℚ × ℚ × ℚ)) (faces : List (Int × Int × Int)) (pd : PointData)
deriving DecidableEq

/-- The points of a mesh. -/
def PvMesh.points : PvMesh → List (ℚ × ℚ × ℚ)
  | .pointSet p _ => p
  | .polyData p _ _ => p

/-- Whether the mesh is a `PointSet`. -/
def PvMesh.isPointSet : PvMesh → Bool
  | .pointSet _ _ => true
  | .polyData _ _ _ => false

/-- The per-point attribute dictionary of a mesh. -/
def PvMesh.point_data : PvMesh → PointData
  | .pointSet _ pd => pd
  | .polyData _ _ pd => pd

/-- Assignment `mesh.point_data["Normals"] = n`. -/
def PvMesh.setNormals (m : PvMesh) (n : List (ℚ × ℚ × ℚ)) : PvMesh :=
  match m with
  | .pointSet p pd => .pointSet p ⟨some n, pd.tcoords, pd.rgb⟩
  | .polyData p f pd => .polyData p f ⟨some n, pd.tcoords, pd.rgb⟩

/-- Assignment `mesh.point_data["TCoords"] = uv`. -/
def PvMesh.setTCoords (m : PvMesh) (uv : List (ℚ × ℚ)) : PvMesh :=
  match m with
  | .pointSet p pd => .pointSet p ⟨pd.normals, some uv, pd.rgb⟩
  | .polyData p f pd => .polyData p f ⟨pd.normals, some uv, pd.rgb⟩

/-- Assignment `mesh.point_data["RGB"] = c`. -/
def PvMesh.setRGB (m : PvMesh) (c : List (Nat × Nat × Nat)) : PvMesh :=
  match m with
  | .pointSet p pd => .pointSet p ⟨pd.normals, pd.tcoords, some c⟩
  | .polyData p f pd => .polyData p f ⟨pd.normals, pd.tcoords, some c⟩

/-- Embedding of `reader._polydata_from_faces`: builds a `PolyData` from
points and an `(n, 3)` faces array.  The `faces.ndim != 2` guard of the
source always passes here because the faces array is typed with exactly
three columns. -/
def _polydata_from_faces (points : List (ℚ × ℚ × ℚ))
    (faces : List (Int × Int × Int)) : Except PyError PvMesh :=
  .ok (.polyData points faces PointData.empty)

/-- The three attribute-attachment statements closing
`reader.read_as_mesh` (lines 236-241): each of `Normals`/`TCoords`/`RGB`
is attached exactly when its flag is set and the channel is non-empty. -/
def attachChannels (mesh : PvMesh) (read_normals read_uv read_color : Bool)
    (arrs : NpArrays) : PvMesh :=
  let mesh := if read_normals && !arrs.normals.isEmpty then mesh.setNormals arrs.normals else mesh
  let mesh := if read_uv && !arrs.uv.isEmpty then mesh.setTCoords arrs.uv else mesh
  if read_color && !arrs.color.isEmpty then mesh.setRGB arrs.color else mesh

/-- Embedding of `reader.read_as_mesh`: call `read`, raise `RuntimeError`
when the vertices array is `None`, build a `PointSet` when the indices
array is `None` or empty and a `PolyData` otherwise, then attach the
requested non-empty channels. -/
def read_as_mesh (load_ply : String → Bool → Bool → Bool → Except PyError NpArrays)
    (isfile : String → Bool) (filename : PyPathArg)
    (read_normals read_uv read_color : Bool) : Except PyError PvMesh := do
  let arrs ← read load_ply isfile filename read_normals read_uv read_color
  match arrs.vertices with
  | none => .error (.runtimeError "PLY file is missing vertices")
  | some vertices => do
    let mesh ←
      match arrs.indices with
      | none => pure (PvMesh.pointSet vertices PointData.empty)
      | some indices =>
        if indices.isEmpty then pure (PvMesh.pointSet vertices PointData.empty)
        else _polydata_from_faces vertices indices
    pure (attachChannels mesh read_normals read_uv read_color arrs)

/-! Triangulator lemmas. -/

theorem fanFrom_length (v0 prev : α) (l : List α) :
    (fanFrom v0 prev l).length = l.length := by
  induction l generalizing prev with
  | nil => rfl
  | cons v rest ih => simp [fanFrom, ih]

theorem fanFrom_getElem? (v0 : α) (prev : α) (l : List α) (i : Nat) (a b : α)
    (ha : (prev :: l)[i]? = some a) (hb : (prev :: l)[i + 1]? = some b) :
    (fanFrom v0 prev l)[i]? = some (v0, a, b) := by
  induction l generalizing prev i with
  | nil =>
    rcases i with _ | j <;> simp at hb
  | cons v rest ih =>
    rcases i with _ | j
    · simp at ha hb
      simp [fanFrom, ha, hb]
    · rw [List.getElem?_cons_succ] at ha hb
      simpa [fanFrom] using ih v j ha hb

theorem triangulateAll_eq_flatten (faces : List (List α)) :
    triangulateAll faces = (faces.map fanTriangulate).flatten := by
  induction faces with
  | nil => rfl
  | cons f fs ih => simp [triangulateAll, ih]

/-- C3: a face with exactly three indices is emitted as that one triangle;
a face with `k ≥ 3` indices yields `k - 2` triangles by fan triangulation
from its first vertex, the `i`-th being `(v0, v_(i+1), v_(i+2))`; the face
`[0,1,2,3,4]` yields exactly `(0,1,2), (0,2,3), (0,3,4)`; and the
triangles of all faces are concatenated in original face order. -/
theorem fan_triangulation (l : List ℚ) (faces : List (List ℚ)) (h3 : 3 ≤ l.length) :
    (fanTriangulate l).length = l.length - 2 ∧
    (∀ a b c : ℚ, fanTriangulate [a, b, c] = [(a, b, c)]) ∧
    (∀ i v0 a b, l[0]? = some v0 → l[i + 1]? = some a → l[i + 2]? = some b →
      (fanTriangulate l)[i]? = some (v0, a, b)) ∧
    fanTriangulate ([0, 1, 2, 3, 4] : List ℚ) = [(0, 1, 2), (0, 2, 3), (0, 3, 4)] ∧
    triangulateAll faces = (faces.map fanTriangulate).flatten := by
  obtain ⟨v0, v1, rest, rfl⟩ : ∃ v0 v1 rest, l = v0 :: v1 :: rest := by
    rcases l with _ | ⟨v0, _ | ⟨v1, rest⟩⟩ <;> simp at h3
    exact ⟨v0, v1, rest, rfl⟩
  refine ⟨?_, fun a b c => rfl, ?_, by decide, triangulateAll_eq_flatten faces⟩
  · simp [fanTriangulate, fanFrom_length]
  · intro i w0 a b h0 ha hb
    simp at h0
    subst h0
    rw [List.getElem?_cons_succ] at ha hb
    exact fanFrom_getElem? v0 v1 rest i a b ha hb

/-- Closed instance of `fan_triangulation` at the face `[0,1,2,3,4]`. -/
theorem fan_triangulation_witness :
    3 ≤ ([0, 1, 2, 3, 4] : List ℚ).length ∧
      (fanTriangulate ([0, 1, 2, 3, 4] : List ℚ)).length =
        ([0, 1, 2, 3, 4] : List ℚ).length - 2 :=
  ⟨by decide, (fan_triangulation [0, 1, 2, 3, 4] [] (by decide)).1⟩

/-! Flag gating and determinism. -/

/-- C2: the request flags never change which bytes are decoded or where
the cursor ends up — the decode phase of `load_ply` takes no flags — so
disabling `read_color` (or changing any flag) leaves the parse outcome,
the vertices and the indices untouched, and a disabled color channel is
returned as the zero-row array. -/
theorem flags_only_materialize (f : PlyFile) (fl fl' : Flags) (o : PlyOutput)
    (h : load_ply f fl = some o) (hc : fl'.read_color = false) :
    ∃ o', load_ply f fl' = some o' ∧ o'.vertices = o.vertices ∧ o'.indices = o.indices ∧
      o'.color = [] ∧ (fl'.read_normals = fl.read_normals → o'.normals = o.normals) ∧
      (fl'.read_uv = fl.read_uv → o'.uv = o.uv) := by
  cases hd : decodeElems f.elements f.data with
  | none => simp [load_ply, hd] at h
  | some p =>
    simp only [load_ply, hd, Option.bind_eq_bind, Option.some_bind, Option.pure_def,
      Option.some_inj] at h
    refine ⟨assemble fl' p.1, by simp [load_ply, hd], ?_⟩
    subst h
    refine ⟨rfl, rfl, by simp [assemble, hc], fun hn => ?_, fun hu => ?_⟩
    · simp [assemble, hn]
    · simp [assemble, hu]

/-- A tiny valid color-bearing file used by the closed witnesses: one
vertex with integer-typed positions `(10, 20, 30)` and color `(1, 2, 3)`,
binary little-endian. -/
def witnessFile : PlyFile :=
  { elements := [⟨"vertex", 1,
      [.scalar "x" .uint8, .scalar "y" .uint8, .scalar "z" .uint8,
       .scalar "red" .uint8, .scalar "green" .uint8, .scalar "blue" .uint8]⟩],
    data := .bin true [10, 20, 30, 1, 2, 3] }

/-- Closed instance of `flags_only_materialize` on `witnessFile`. -/
theorem flags_only_materialize_witness :
    ∃ o', load_ply witnessFile ⟨true, true, false⟩ = some o' ∧
      o'.vertices = (⟨[(10, 20, 30)], [], [], [], [(1, 2, 3)]⟩ : PlyOutput).vertices ∧
      o'.indices = (⟨[(10, 20, 30)], [], [], [], [(1, 2, 3)]⟩ : PlyOutput).indices ∧
      o'.color = [] ∧
      ((⟨true, true, false⟩ : Flags).read_normals = (⟨true, true, true⟩ : Flags).read_normals →
        o'.normals = (⟨[(10, 20, 30)], [], [], [], [(1, 2, 3)]⟩ : PlyOutput).normals) ∧
      ((⟨true, true, false⟩ : Flags).read_uv = (⟨true, true, true⟩ : Flags).read_uv →
        o'.uv = (⟨[(10, 20, 30)], [], [], [], [(1, 2, 3)]⟩ : PlyOutput).uv) :=
  flags_only_materialize witnessFile ⟨true, true, true⟩ ⟨true, true, false⟩
    ⟨[(10, 20, 30)], [], [], [], [(1, 2, 3)]⟩ (by decide) rfl

/-- Errors of the missing core seen as a whole-call outcome: failure to
open or read the named file, or a terminal decode failure. -/
inductive CoreError
  | ioError
  | parseError
deriving DecidableEq

/-- Modelled from the spec: one full invocation of the missing core
against a filesystem snapshot — open the named file (an `IOError` when it
is not there), parse it, return the five arrays.  Each invocation owns
its own schema, cursor and output buffers; the snapshot is its only
input. -/
def readFromFS (fs : String → Option PlyFile) (path : String) (fl : Flags) :
    Except CoreError PlyOutput :=
  match fs path with
  | none => .error .ioError
  | some f =>
    match load_ply f fl with
    | none => .error .parseError
    | some o => .ok o

/-- C8: the parse is deterministic and keeps no shared state across
calls — the outcome of a call depends only on the content of the named
file, so two calls with the same flags against snapshots that agree on
that file (in particular two successive calls on an unchanged file)
return bit-identical results. -/
theorem read_deterministic (fs₁ fs₂ : String → Option PlyFile) (p : String) (fl : Flags)
    (h : fs₁ p = fs₂ p) : readFromFS fs₁ p fl = readFromFS fs₂ p fl := by
  unfold readFromFS
  rw [h]

/-- Closed instance of `read_deterministic`: two distinct filesystem
snapshots agreeing on `tmp.ply` give identical outcomes. -/
theorem read_deterministic_witness :
    readFromFS (fun s => if s = "tmp.ply" then some witnessFile else none) "tmp.ply"
        ⟨true, true, true⟩ =
      readFromFS (fun _ => some witnessFile) "tmp.ply" ⟨true, true, true⟩ :=
  read_deterministic _ _ "tmp.ply" ⟨true, true, true⟩ (by simp)

/-! Decode shape lemmas: a decoded row carries exactly the declared
property names with the declared kinds. -/

/-- Kind tag of a decoded field. -/
def fieldIsList : Field → Bool
  | .scalar _ => false
  | .flist _ => true

/-- Name/kind silhouette of a decoded row. -/
def rowShape (r : Row) : List (String × Bool) :=
  r.map fun e => (e.1, fieldIsList e.2)

/-- Name/kind silhouette of a declared property list. -/
def propsShape (ps : List PropertyDescriptor) : List (String × Bool) :=
  ps.map fun p => (p.pname, p.isListKind)

/-- Whether the first property declared under `nm` is scalar-kinded. -/
def declaresScalar : List PropertyDescriptor → String → Bool
  | [], _ => false
  | p :: ps, nm => if p.pname == nm then !p.isListKind else declaresScalar ps nm

theorem decodeProp_shape (p : PropertyDescriptor) (d : Data) (f : String × Field) (d' : Data)
    (h : decodeProp p d = some (f, d')) :
    (f.1, fieldIsList f.2) = (p.pname, p.isListKind) := by
  cases p with
  | scalar n ty =>
    cases hs : decodeScalar ty d with
    | none => simp [decodeProp, hs] at h
    | some vd =>
      simp [decodeProp, hs] at h
      rw [← h.1]
      rfl
  | list n cty ity =>
    cases hs : decodeScalar cty d with
    | none => simp [decodeProp, hs] at h
    | some vd =>
      cases hi : decodeItems ity (Int.toNat ⌊vd.1⌋) vd.2 with
      | none => simp [decodeProp, hs, hi] at h
      | some vs =>
        simp [decodeProp, hs, hi] at h
        rw [← h.1]
        rfl

theorem decodeRow_shape (ps : List PropertyDescriptor) (d : Data) (r : Row) (d' : Data)
    (h : decodeRow ps d = some (r, d')) : rowShape r = propsShape ps := by
  induction ps generalizing d r d' with
  | nil =>
    simp [decodeRow] at h
    simp [← h.1, rowShape, propsShape]
  | cons p ps ih =>
    cases hp : decodeProp p d with
    | none => simp [decodeRow, hp] at h
    | some fd =>
      cases hr : decodeRow ps fd.2 with
      | none => simp [decodeRow, hp, hr] at h
      | some rd =>
        simp [decodeRow, hp, hr] at h
        have h1 := decodeProp_shape p d fd.1 fd.2 (by rw [hp])
        have h2 := ih fd.2 rd.1 rd.2 (by rw [hr])
        rw [← h.1]
        simpa [rowShape, propsShape, h1] using h2

theorem decodeRows_length (n : Nat) (ps : List PropertyDescriptor) (d : Data)
    (rs : List Row) (d' : Data) (h : decodeRows n ps d = some (rs, d')) : rs.length = n := by
  induction n generalizing d rs d' with
  | zero =>
    simp [decodeRows] at h
    simp [← h.1]
  | succ n ih =>
    cases hr : decodeRow ps d with
    | none => simp [decodeRows, hr] at h
    | some rd =>
      cases hrs : decodeRows n ps rd.2 with
      | none => simp [decodeRows, hr, hrs] at h
      | some rsd =>
        simp [decodeRows, hr, hrs] at h
        have := ih rd.2 rsd.1 rsd.2 (by rw [hrs])
        simp [← h.1, this]

theorem decodeRows_shape (n : Nat) (ps : List PropertyDescriptor) (d : Data)
    (rs : List Row) (d' : Data) (h : decodeRows n ps d = some (rs, d')) :
    ∀ r ∈ rs, rowShape r = propsShape ps := by
  induction n generalizing d rs d' with
  | zero =>
    simp [decodeRows] at h
    obtain ⟨h1, h2⟩ := h
    subst h1
    intro r hr
    simp at hr
  | succ n ih =>
    cases hr : decodeRow ps d with
    | none => simp [decodeRows, hr] at h
    | some rd =>
      cases hrs : decodeRows n ps rd.2 with
      | none => simp [decodeRows, hr, hrs] at h
      | some rsd =>
        simp [decodeRows, hr, hrs] at h
        intro r hrmem
        rw [← h.1] at hrmem
        rcases List.mem_cons.mp hrmem with hrmem | hrmem
        · subst hrmem
          exact decodeRow_shape ps d rd.1 rd.2 (by rw [hr])
        · exact ih rd.2 rsd.1 rsd.2 (by rw [hrs]) r hrmem

theorem decodeElems_find (es : List PlyElement) (d : Data) (out : List (String × List Row))
    (d' : Data) (h : decodeElems es d = some (out, d')) (nm : String) (e : PlyElement)
    (hf : es.find? (fun el => el.name == nm) = some e) :
    ∃ rows, out.lookup nm = some rows ∧ rows.length = e.count ∧
      ∀ r ∈ rows, rowShape r = propsShape e.properties := by
  induction es generalizing d out d' with
  | nil => simp at hf
  | cons e0 es ih =>
    cases hrs : decodeRows e0.count e0.properties d with
    | none => simp [decodeElems, hrs] at h
    | some rsd =>
      cases hrest : decodeElems es rsd.2 with
      | none => simp [decodeElems, hrs, hrest] at h
      | some od =>
        simp [decodeElems, hrs, hrest] at h
        cases hn : (e0.name == nm) with
        | true =>
          simp only [List.find?_cons, hn] at hf
          obtain rfl : e0 = e := by simpa using hf
          refine ⟨rsd.1, ?_, ?_, ?_⟩
          · rw [← h.1]
            simp [List.lookup, beq_iff_eq.mpr (beq_iff_eq.mp hn).symm]
          · exact decodeRows_length e0.count e0.properties d rsd.1 rsd.2 (by rw [hrs])
          · exact decodeRows_shape e0.count e0.properties d rsd.1 rsd.2 (by rw [hrs])
        | false =>
          simp only [List.find?_cons, hn] at hf
          obtain ⟨rows, h1, h2, h3⟩ := ih rsd.2 od.1 od.2 (by rw [hrest]) hf
          refine ⟨rows, ?_, h2, h3⟩
          rw [← h.1]
          have hne : (nm == e0.name) = false := by
            cases hnm : (nm == e0.name)
            · rfl
            · rw [beq_iff_eq.mp hnm] at hn
              simp at hn
          simp [List.lookup, hne, h1]

theorem decodeElems_lookup_none (es : List PlyElement) (d : Data)
    (out : List (String × List Row)) (d' : Data) (h : decodeElems es d = some (out, d'))
    (nm : String) (hf : es.find? (fun el => el.name == nm) = none) :
    out.lookup nm = none := by
  induction es generalizing d out d' with
  | nil =>
    simp [decodeElems] at h
    obtain ⟨h1, h2⟩ := h
    subst h1
    rfl
  | cons e0 es ih =>
    cases hrs : decodeRows e0.count e0.properties d with
    | none => simp [decodeElems, hrs] at h
    | some rsd =>
      cases hrest : decodeElems es rsd.2 with
      | none => simp [decodeElems, hrs, hrest] at h
      | some od =>
        simp [decodeElems, hrs, hrest] at h
        rw [List.find?_eq_none] at hf
        have hn : (e0.name == nm) = false := by
          have := hf e0 (by simp)
          simpa using this
        have hne : (nm == e0.name) = false := by
          cases hnm : (nm == e0.name)
          · rfl
          · rw [beq_iff_eq.mp hnm] at hn
            simp at hn
        rw [← h.1]
        simp only [List.lookup, hne]
        exact ih rsd.2 od.1 od.2 (by rw [hrest])
          (List.find?_eq_none.mpr fun el hel => hf el (by simp [hel]))

theorem getScalarField_isSome (r : Row) (ps : List PropertyDescriptor)
    (h : rowShape r = propsShape ps) (nm : String) :
    (getScalarField r nm).isSome = declaresScalar ps nm := by
  induction r generalizing ps with
  | nil =>
    cases ps with
    | nil => rfl
    | cons p ps => simp [rowShape, propsShape] at h
  | cons e r ih =>
    cases ps with
    | nil => simp [rowShape, propsShape] at h
    | cons p ps =>
      simp [rowShape, propsShape] at h
      obtain ⟨⟨hn, hk⟩, hrest⟩ := h
      cases he : (e.1 == nm) with
      | true =>
        have hp : (p.pname == nm) = true := by
          rw [← hn]
          exact he
        obtain ⟨n, f⟩ := e
        cases f <;>
          simp_all [getScalarField, declaresScalar, fieldIsList]
      | false =>
        have hp : (p.pname == nm) = false := by
          rw [← hn]
          exact he
        obtain ⟨n, f⟩ := e
        simp only [getScalarField, declaresScalar, he, hp, if_neg, Bool.false_eq_true,
          if_false]
        exact ih ps (by simpa [rowShape, propsShape] using hrest)

theorem posOf_isSome (r : Row) (ps : List PropertyDescriptor)
    (h : rowShape r = propsShape ps) :
    (posOf r).isSome =
      (declaresScalar ps "x" && declaresScalar ps "y" && declaresScalar ps "z") := by
  rw [← getScalarField_isSome r ps h "x", ← getScalarField_isSome r ps h "y",
    ← getScalarField_isSome r ps h "z"]
  cases hx : getScalarField r "x" <;> cases hy : getScalarField r "y" <;>
    cases hz : getScalarField r "z" <;> simp [posOf, hx, hy, hz]

theorem normalOf_isSome (r : Row) (ps : List PropertyDescriptor)
    (h : rowShape r = propsShape ps) :
    (normalOf r).isSome =
      (declaresScalar ps "nx" && declaresScalar ps "ny" && declaresScalar ps "nz") := by
  rw [← getScalarField_isSome r ps h "nx", ← getScalarField_isSome r ps h "ny",
    ← getScalarField_isSome r ps h "nz"]
  cases hx : getScalarField r "nx" <;> cases hy : getScalarField r "ny" <;>
    cases hz : getScalarField r "nz" <;> simp [normalOf, hx, hy, hz]

theorem colorOf_isSome (r : Row) (ps : List PropertyDescriptor)
    (h : rowShape r = propsShape ps) :
    (colorOf r).isSome =
      (declaresScalar ps "red" && declaresScalar ps "green" && declaresScalar ps "blue") := by
  rw [← getScalarField_isSome r ps h "red", ← getScalarField_isSome r ps h "green",
    ← getScalarField_isSome r ps h "blue"]
  cases hx : getScalarField r "red" <;> cases hy : getScalarField r "green" <;>
    cases hz : getScalarField r "blue" <;> simp [colorOf, hx, hy, hz]

theorem uvOf_isSome (r : Row) (ps : List PropertyDescriptor)
    (h : rowShape r = propsShape ps) :
    (uvOf r).isSome =
      ((declaresScalar ps "u" && declaresScalar ps "v") ||
        (declaresScalar ps "s" && declaresScalar ps "t")) := by
  rw [← getScalarField_isSome r ps h "u", ← getScalarField_isSome r ps h "v",
    ← getScalarField_isSome r ps h "s", ← getScalarField_isSome r ps h "t"]
  cases hu : getScalarField r "u" <;> cases hv : getScalarField r "v" <;>
    cases hs : getScalarField r "s" <;> cases ht : getScalarField r "t" <;>
      simp [uvOf, hu, hv, hs, ht, Option.orElse]

theorem length_filterMap_isSome (f : α → Option β) (l : List α)
    (h : ∀ x ∈ l, (f x).isSome) : (l.filterMap f).length = l.length := by
  induction l with
  | nil => rfl
  | cons a l ih =>
    cases hf : f a with
    | none =>
      have := h a (by simp)
      rw [hf] at this
      simp at this
    | some b => simp [List.filterMap_cons, hf, ih fun x hx => h x (by simp [hx])]

theorem filterMap_eq_nil_of_none (f : α → Option β) (l : List α)
    (h : ∀ x ∈ l, f x = none) : l.filterMap f = [] := by
  induction l with
  | nil => rfl
  | cons a l ih => simp [List.filterMap_cons, h a (by simp), ih fun x hx => h x (by simp [hx])]

/-- C1: for a successfully read file whose (first) `vertex` element has
count `N` and declares scalar `x`,`y`,`z`, and which has no `face`
element, the vertices array has `N` rows and the indices array zero rows;
each of the normals/UV/color channels comes back with zero rows whenever
its flag is off or the channel is not declared in the file.  Column
widths and dtypes are fixed by the types of `PlyOutput` itself. -/
theorem output_shape_invariants (f : PlyFile) (fl : Flags) (o : PlyOutput) (e : PlyElement)
    (h : load_ply f fl = some o)
    (hv : f.elements.find? (fun el => el.name == "vertex") = some e)
    (hxyz : (declaresScalar e.properties "x" && declaresScalar e.properties "y" &&
      declaresScalar e.properties "z") = true)
    (hface : f.elements.find? (fun el => el.name == "face") = none) :
    o.vertices.length = e.count ∧ o.indices = [] ∧
      (fl.read_normals = false ∨
        (declaresScalar e.properties "nx" && declaresScalar e.properties "ny" &&
          declaresScalar e.properties "nz") = false → o.normals = []) ∧
      (fl.read_uv = false ∨
        ((declaresScalar e.properties "u" && declaresScalar e.properties "v") ||
          (declaresScalar e.properties "s" && declaresScalar e.properties "t")) = false →
        o.uv = []) ∧
      (fl.read_color = false ∨
        (declaresScalar e.properties "red" && declaresScalar e.properties "green" &&
          declaresScalar e.properties "blue") = false → o.color = []) := by
  cases hd : decodeElems f.elements f.data with
  | none => simp [load_ply, hd] at h
  | some p =>
    simp only [load_ply, hd, Option.bind_eq_bind, Option.some_bind, Option.pure_def,
      Option.some_inj] at h
    obtain ⟨rows, hlook, hlen, hshape⟩ :=
      decodeElems_find f.elements f.data p.1 p.2 (by rw [hd]) "vertex" e hv
    have hfl : p.1.lookup "face" = none :=
      decodeElems_lookup_none f.elements f.data p.1 p.2 (by rw [hd]) "face" hface
    subst h
    refine ⟨?_, ?_, ?_, ?_, ?_⟩
    · simp only [assemble, hlook, Option.getD_some]
      rw [length_filterMap_isSome posOf rows, hlen]
      intro r hr
      rw [posOf_isSome r e.properties (hshape r hr), hxyz]
    · simp [assemble, hfl, triangulateAll]
    · rintro (hn | hn)
      · simp [assemble, hn]
      · simp only [assemble, hlook, Option.getD_some]
        split
        · exact filterMap_eq_nil_of_none _ rows fun r hr => by
            have := normalOf_isSome r e.properties (hshape r hr)
            rw [hn] at this
            exact Option.not_isSome_iff_eq_none.mp (by rw [this]; simp)
        · rfl
    · rintro (hu | hu)
      · simp [assemble, hu]
      · simp only [assemble, hlook, Option.getD_some]
        split
        · exact filterMap_eq_nil_of_none _ rows fun r hr => by
            have := uvOf_isSome r e.properties (hshape r hr)
            rw [hu] at this
            exact Option.not_isSome_iff_eq_none.mp (by rw [this]; simp)
        · rfl
    · rintro (hc | hc)
      · simp [assemble, hc]
      · simp only [assemble, hlook, Option.getD_some]
        split
        · rw [filterMap_eq_nil_of_none _ rows fun r hr => by
            have := colorOf_isSome r e.properties (hshape r hr)
            rw [hc] at this
            exact Option.not_isSome_iff_eq_none.mp (by rw [this]; simp)]
          rfl
        · rfl

/-- A two-point binary point-cloud file with only positions declared. -/
def pointCloudFile : PlyFile :=
  { elements := [⟨"vertex", 2,
      [.scalar "x" .uint8, .scalar "y" .uint8, .scalar "z" .uint8]⟩],
    data := .bin true [1, 2, 3, 4, 5, 6] }

/-- Closed instance of `output_shape_invariants` on `pointCloudFile`. -/
theorem output_shape_invariants_witness :
    ∃ o, load_ply pointCloudFile ⟨true, true, true⟩ = some o ∧
      o.vertices.length = 2 ∧ o.indices = [] :=
  ⟨⟨[(1, 2, 3), (4, 5, 6)], [], [], [], []⟩, by decide,
    (output_shape_invariants pointCloudFile ⟨true, true, true⟩
      ⟨[(1, 2, 3), (4, 5, 6)], [], [], [], []⟩ ⟨"vertex", 2,
        [.scalar "x" .uint8, .scalar "y" .uint8, .scalar "z" .uint8]⟩
      (by decide) (by decide) (by decide) (by decide)).1,
    (output_shape_invariants pointCloudFile ⟨true, true, true⟩
      ⟨[(1, 2, 3), (4, 5, 6)], [], [], [], []⟩ ⟨"vertex", 2,
        [.scalar "x" .uint8, .scalar "y" .uint8, .scalar "z" .uint8]⟩
      (by decide) (by decide) (by decide) (by decide)).2.1⟩

/-! Wrapper-layer lemmas and theorems. -/

theorem Except_ok_bind (a : α) (f : α → Except ε β) :
    ((Except.ok a : Except ε α) >>= f) = f a := rfl

theorem Except_map_ok (f : α → β) (a : α) :
    (f <$> (Except.ok a : Except ε α)) = Except.ok (f a) := rfl

theorem Except_pure (a : α) : (pure a : Except ε α) = Except.ok a := rfl

theorem points_setNormals (m : PvMesh) (n : List (ℚ × ℚ × ℚ)) :
    (m.setNormals n).points = m.points := by
  cases m <;> rfl

theorem points_setTCoords (m : PvMesh) (uv : List (ℚ × ℚ)) :
    (m.setTCoords uv).points = m.points := by
  cases m <;> rfl

theorem points_setRGB (m : PvMesh) (c : List (Nat × Nat × Nat)) :
    (m.setRGB c).points = m.points := by
  cases m <;> rfl

theorem isPointSet_setNormals (m : PvMesh) (n : List (ℚ × ℚ × ℚ)) :
    (m.setNormals n).isPointSet = m.isPointSet := by
  cases m <;> rfl

theorem isPointSet_setTCoords (m : PvMesh) (uv : List (ℚ × ℚ)) :
    (m.setTCoords uv).isPointSet = m.isPointSet := by
  cases m <;> rfl

theorem isPointSet_setRGB (m : PvMesh) (c : List (Nat × Nat × Nat)) :
    (m.setRGB c).isPointSet = m.isPointSet := by
  cases m <;> rfl

theorem point_data_setNormals (m : PvMesh) (n : List (ℚ × ℚ × ℚ)) :
    (m.setNormals n).point_data = ⟨some n, m.point_data.tcoords, m.point_data.rgb⟩ := by
  cases m <;> rfl

theorem point_data_setTCoords (m : PvMesh) (uv : List (ℚ × ℚ)) :
    (m.setTCoords uv).point_data = ⟨m.point_data.normals, some uv, m.point_data.rgb⟩ := by
  cases m <;> rfl

theorem point_data_setRGB (m : PvMesh) (c : List (Nat × Nat × Nat)) :
    (m.setRGB c).point_data = ⟨m.point_data.normals, m.point_data.tcoords, some c⟩ := by
  cases m <;> rfl

theorem attachChannels_points (m : PvMesh) (rn ru rc : Bool) (arrs : NpArrays) :
    (attachChannels m rn ru rc arrs).points = m.points := by
  simp only [attachChannels]
  split_ifs <;> simp [points_setNormals, points_setTCoords, points_setRGB]

theorem attachChannels_isPointSet (m : PvMesh) (rn ru rc : Bool) (arrs : NpArrays) :
    (attachChannels m rn ru rc arrs).isPointSet = m.isPointSet := by
  simp only [attachChannels]
  split_ifs <;> simp [isPointSet_setNormals, isPointSet_setTCoords, isPointSet_setRGB]

theorem attachChannels_point_data (m : PvMesh) (rn ru rc : Bool) (arrs : NpArrays)
    (h : m.point_data = PointData.empty) :
    (attachChannels m rn ru rc arrs).point_data =
      ⟨if rn && !arrs.normals.isEmpty then some arrs.normals else none,
       if ru && !arrs.uv.isEmpty then some arrs.uv else none,
       if rc && !arrs.color.isEmpty then some arrs.color else none⟩ := by
  simp only [attachChannels]
  split_ifs <;>
    simp [point_data_setNormals, point_data_setTCoords, point_data_setRGB, h, PointData.empty]

/-- C6: when the (stringified) path does not name an existing regular
file, `read` raises `FileNotFoundError` — whatever the native core would
do, since the result does not depend on the quantified `load_ply`
binding at all: the wrapper's existence check fires first. -/
theorem read_nonfile_raises (load_ply : String → Bool → Bool → Bool → Except PyError NpArrays)
    (isfile : String → Bool) (filename : PyPathArg) (rn ru rc : Bool)
    (h : isfile (pyStr filename) = false) :
    read load_ply isfile filename rn ru rc =
      .error (.fileNotFound ("Invalid file or unable to locate \"" ++ pyStr filename ++ "\"")) := by
  simp [read, h]

/-- Closed instance of `read_nonfile_raises` for a missing file. -/
theorem read_nonfile_raises_witness :
    read (fun _ _ _ _ => .ok ⟨some [], some [], [], [], []⟩) (fun _ => false)
        (.str "missing.ply") true true true =
      .error (.fileNotFound ("Invalid file or unable to locate \"" ++
        pyStr (.str "missing.ply") ++ "\"")) :=
  read_nonfile_raises (fun _ _ _ _ => .ok ⟨some [], some [], [], [], []⟩) (fun _ => false)
    (.str "missing.ply") true true true rfl

/-- C9: a `pathlib.Path` argument and the `str` it renders to are
interchangeable for `read` and `read_as_mesh`: both are converted with
`str()` before the existence check and before reaching the core. -/
theorem read_path_str_interchangeable
    (load_ply : String → Bool → Bool → Bool → Except PyError NpArrays)
    (isfile : String → Bool) (s : String) (rn ru rc : Bool) :
    read load_ply isfile (.path s) rn ru rc = read load_ply isfile (.str s) rn ru rc ∧
      read_as_mesh load_ply isfile (.path s) rn ru rc =
        read_as_mesh load_ply isfile (.str s) rn ru rc :=
  ⟨rfl, rfl⟩

/-- C10: when the underlying read hands back `None` in place of the
vertices array, `read_as_mesh` raises
`RuntimeError("PLY file is missing vertices")`; no mesh object is
built. -/
theorem read_as_mesh_missing_vertices
    (load_ply : String → Bool → Bool → Bool → Except PyError NpArrays)
    (isfile : String → Bool) (filename : PyPathArg) (rn ru rc : Bool) (arrs : NpArrays)
    (hfile : isfile (pyStr filename) = true)
    (hlp : load_ply (pyStr filename) rn ru rc = .ok arrs)
    (hvert : arrs.vertices = none) :
    read_as_mesh load_ply isfile filename rn ru rc =
      .error (.runtimeError "PLY file is missing vertices") := by
  have hread : read load_ply isfile filename rn ru rc = .ok arrs := by
    simp [read, hfile, hlp]
  simp [read_as_mesh, hread, Except_ok_bind, hvert]

/-- Closed instance of `read_as_mesh_missing_vertices`. -/
theorem read_as_mesh_missing_vertices_witness :
    read_as_mesh (fun _ _ _ _ => .ok ⟨none, some [], [], [], []⟩) (fun _ => true)
        (.str "a.ply") true true true =
      .error (.runtimeError "PLY file is missing vertices") :=
  read_as_mesh_missing_vertices (fun _ _ _ _ => .ok ⟨none, some [], [], [], []⟩)
    (fun _ => true) (.str "a.ply") true true true ⟨none, some [], [], [], []⟩ rfl rfl rfl

/-- C4: on any successful read whose indices array is `None` or empty —
a point cloud — `read_as_mesh` does not fail: it returns a `PointSet`
built from the vertices, whatever the optional channels hold. -/
theorem read_as_mesh_point_cloud
    (load_ply : String → Bool → Bool → Bool → Except PyError NpArrays)
    (isfile : String → Bool) (filename : PyPathArg) (rn ru rc : Bool) (arrs : NpArrays)
    (verts : List (ℚ × ℚ × ℚ))
    (hfile : isfile (pyStr filename) = true)
    (hlp : load_ply (pyStr filename) rn ru rc = .ok arrs)
    (hv : arrs.vertices = some verts)
    (hi : arrs.indices = none ∨ arrs.indices = some []) :
    ∃ m, read_as_mesh load_ply isfile filename rn ru rc = .ok m ∧
      m.isPointSet = true ∧ m.points = verts := by
  have hread : read load_ply isfile filename rn ru rc = .ok arrs := by
    simp [read, hfile, hlp]
  refine ⟨attachChannels (.pointSet verts PointData.empty) rn ru rc arrs, ?_,
    by rw [attachChannels_isPointSet]; rfl, by rw [attachChannels_points]; rfl⟩
  rcases hi with hi | hi <;>
    simp [read_as_mesh, hread, Except_ok_bind, Except_pure, hv, hi]

/-- Closed instance of `read_as_mesh_point_cloud` on a one-point cloud. -/
theorem read_as_mesh_point_cloud_witness :
    ∃ m, read_as_mesh (fun _ _ _ _ => .ok ⟨some [(1, 2, 3)], none, [], [], [(9, 9, 9)]⟩)
        (fun _ => true) (.str "pc.ply") true true true = .ok m ∧
      m.isPointSet = true ∧ m.points = [(1, 2, 3)] :=
  read_as_mesh_point_cloud (fun _ _ _ _ => .ok ⟨some [(1, 2, 3)], none, [], [], [(9, 9, 9)]⟩)
    (fun _ => true) (.str "pc.ply") true true true ⟨some [(1, 2, 3)], none, [], [], [(9, 9, 9)]⟩
    [(1, 2, 3)] rfl rfl rfl (Or.inl rfl)

/-- C5: on any successful `read_as_mesh` call, each of the per-point
attributes `Normals`, `TCoords`, `RGB` is attached to the returned mesh
exactly when the corresponding flag is set and the corresponding array
returned by the read is non-empty. -/
theorem read_as_mesh_attaches_iff
    (load_ply : String → Bool → Bool → Bool → Except PyError NpArrays)
    (isfile : String → Bool) (filename : PyPathArg) (rn ru rc : Bool) (arrs : NpArrays)
    (verts : List (ℚ × ℚ × ℚ)) (m : PvMesh)
    (hfile : isfile (pyStr filename) = true)
    (hlp : load_ply (pyStr filename) rn ru rc = .ok arrs)
    (hv : arrs.vertices = some verts)
    (hm : read_as_mesh load_ply isfile filename rn ru rc = .ok m) :
    m.point_data.normals.isSome = (rn && !arrs.normals.isEmpty) ∧
      m.point_data.tcoords.isSome = (ru && !arrs.uv.isEmpty) ∧
      m.point_data.rgb.isSome = (rc && !arrs.color.isEmpty) := by
  have hread : read load_ply isfile filename rn ru rc = .ok arrs := by
    simp [read, hfile, hlp]
  have hbase : ∃ base : PvMesh, base.point_data = PointData.empty ∧
      m = attachChannels base rn ru rc arrs := by
    cases hi : arrs.indices with
    | none =>
      refine ⟨.pointSet verts PointData.empty, rfl, ?_⟩
      simp [read_as_mesh, hread, Except_ok_bind, Except_pure, hv, hi] at hm
      exact hm.symm
    | some idx =>
      cases idx with
      | nil =>
        refine ⟨.pointSet verts PointData.empty, rfl, ?_⟩
        simp [read_as_mesh, hread, Except_ok_bind, Except_pure, hv, hi] at hm
        exact hm.symm
      | cons t ts =>
        refine ⟨.polyData verts (t :: ts) PointData.empty, rfl, ?_⟩
        simp [read_as_mesh, hread, Except_ok_bind, Except_map_ok, hv, hi,
          _polydata_from_faces] at hm
        exact hm.symm
  obtain ⟨base, hpd, rfl⟩ := hbase
  rw [attachChannels_point_data base rn ru rc arrs hpd]
  refine ⟨?_, ?_, ?_⟩ <;> [cases h : (rn && !arrs.normals.isEmpty);
    cases h : (ru && !arrs.uv.isEmpty); cases h : (rc && !arrs.color.isEmpty)] <;> simp

/-- Closed instance of `read_as_mesh_attaches_iff`: normals requested and
present, UV requested but empty, color present but not requested. -/
theorem read_as_mesh_attaches_iff_witness :
    (PvMesh.pointSet [(1, 2, 3)] ⟨some [(0, 0, 1)], none, none⟩).point_data.normals.isSome =
        (true && !([(0, 0, 1)] : List (ℚ × ℚ × ℚ)).isEmpty) ∧
      (PvMesh.pointSet [(1, 2, 3)] ⟨some [(0, 0, 1)], none, none⟩).point_data.tcoords.isSome =
        (true && !([] : List (ℚ × ℚ)).isEmpty) ∧
      (PvMesh.pointSet [(1, 2, 3)] ⟨some [(0, 0, 1)], none, none⟩).point_data.rgb.isSome =
        (false && !([(7, 7, 7)] : List (Nat × Nat × Nat)).isEmpty) :=
  read_as_mesh_attaches_iff
    (fun _ _ _ _ => .ok ⟨some [(1, 2, 3)], none, [(0, 0, 1)], [], [(7, 7, 7)]⟩)
    (fun _ => true) (.str "w.ply") true true false
    ⟨some [(1, 2, 3)], none, [(0, 0, 1)], [], [(7, 7, 7)]⟩ [(1, 2, 3)]
    (.pointSet [(1, 2, 3)] ⟨some [(0, 0, 1)], none, none⟩) rfl rfl rfl rfl

/-! Reference encoders: a mesh, given as a schema plus the raw bit
patterns of every field, can be serialized to ASCII tokens or to binary
bytes of either endianness.  Decoding any of the three serializations
yields the same semantic rows, hence the same five output arrays. -/

/-- The raw content of one field of one row, prior to serialization: the
bit pattern of a scalar, or the patterns of a list's items. -/
inductive FieldData
  | scalarP (p : Nat)
  | listP (ps : List Nat)
deriving DecidableEq

/-- Binary serialization of one bit pattern under a scalar type. -/
def encScalarBin (isLE : Bool) (ty : ScalarType) (p : Nat) : List Nat :=
  if isLE then toBytesLE ty.byteWidth p else toBytesBE ty.byteWidth p

/-- A token with exact value `m * 2 ^ k`: an integer literal when
`k ≥ 0`, else the decimal literal `(m * 5 ^ (-k)) * 10 ^ k`. -/
def dyadicToken (m k : Int) : Token :=
  if 0 ≤ k then .int (m * 2 ^ k.toNat) else .dec (m * 5 ^ (-k).toNat) k

/-- ASCII serialization of one bit pattern under a scalar type: integer
types as the integer literal of their two's-complement value, float
types as an exact decimal literal. -/
def encScalarTok (ty : ScalarType) (p : Nat) : Token :=
  match ty with
  | .float32 => dyadicToken (floatMK 8 23 p).1 (floatMK 8 23 p).2
  | .float64 => dyadicToken (floatMK 11 52 p).1 (floatMK 11 52 p).2
  | _ => .int (intValOf ty p)

theorem dyadicToken_val (m k : Int) : (dyadicToken m k).val = (m : ℚ) * (2 : ℚ) ^ k := by
  unfold dyadicToken
  split_ifs with hk
  · simp only [Token.val]
    push_cast
    rw [← zpow_natCast (2 : ℚ) k.toNat, Int.toNat_of_nonneg hk]
  · simp only [Token.val]
    push_cast
    have h5 : ((5 : ℚ)) ^ ((-k).toNat) = (5 : ℚ) ^ (-k) := by
      rw [← zpow_natCast (5 : ℚ) (-k).toNat, Int.toNat_of_nonneg (by omega)]
    rw [h5, show (10 : ℚ) = 2 * 5 by norm_num, mul_zpow]
    have h55 : (5 : ℚ) ^ (-k) * (5 : ℚ) ^ k = 1 := by
      rw [← zpow_add₀ (by norm_num : (5 : ℚ) ≠ 0)]
      simp
    calc (m : ℚ) * 5 ^ (-k) * (2 ^ k * 5 ^ k)
        = (m : ℚ) * 2 ^ k * (5 ^ (-k) * 5 ^ k) := by ring
      _ = (m : ℚ) * 2 ^ k := by rw [h55, mul_one]

theorem decodeScalar_encBin (isLE : Bool) (ty : ScalarType) (p : Nat) (rest : List Nat)
    (h : p < 2 ^ (8 * ty.byteWidth)) :
    decodeScalar ty (.bin isLE (encScalarBin isLE ty p ++ rest)) =
      some (valueOf ty p, .bin isLE rest) := by
  have h256 : p < 256 ^ ty.byteWidth := by
    calc p < 2 ^ (8 * ty.byteWidth) := h
      _ = 256 ^ ty.byteWidth := by rw [pow_mul]; norm_num
  have hlen : (encScalarBin isLE ty p).length = ty.byteWidth := by
    unfold encScalarBin
    split_ifs <;> simp [toBytesBE, length_toBytesLE]
  have htake : (encScalarBin isLE ty p ++ rest).take ty.byteWidth = encScalarBin isLE ty p := by
    rw [← hlen]
    exact List.take_left _ _
  have hdrop : (encScalarBin isLE ty p ++ rest).drop ty.byteWidth = rest := by
    rw [← hlen]
    exact List.drop_left _ _
  have hle : ty.byteWidth ≤ (encScalarBin isLE ty p ++ rest).length := by
    simp [hlen]
  have hval : (if isLE then fromBytesLE (encScalarBin isLE ty p)
      else fromBytesBE (encScalarBin isLE ty p)) = p := by
    unfold encScalarBin
    cases isLE <;> simp [fromBytesBE_toBytesBE ty.byteWidth p h256,
      fromBytesLE_toBytesLE ty.byteWidth p h256]
  simp [decodeScalar, readBytes, hle, htake, hdrop, hval, hlen]

theorem decodeScalar_encTok (ty : ScalarType) (p : Nat) (rest : List Token) :
    decodeScalar ty (.asc (encScalarTok ty p :: rest)) = some (valueOf ty p, .asc rest) := by
  cases ty <;>
    simp [decodeScalar, encScalarTok, ScalarType.isFloat, valueOf, Token.asInt,
      dyadicToken_val, dyadicVal]

/-- A serialization mode: how one scalar pattern becomes output units and
how a unit stream becomes a `Data` payload, together with the fact that
decoding inverts encoding. -/
structure EncMode (β : Type) where
  enc : ScalarType → Nat → List β
  wrap : List β → Data
  dec_ok : ∀ ty p rest, p < 2 ^ (8 * ty.byteWidth) →
    decodeScalar ty (wrap (enc ty p ++ rest)) = some (valueOf ty p, wrap rest)

/-- Binary serialization mode of either endianness. -/
def binMode (isLE : Bool) : EncMode Nat :=
  ⟨encScalarBin isLE, .bin isLE, fun ty p rest h => decodeScalar_encBin isLE ty p rest h⟩

/-- ASCII serialization mode. -/
def ascMode : EncMode Token :=
  ⟨fun ty p => [encScalarTok ty p], .asc, fun ty p rest _ => decodeScalar_encTok ty p rest⟩

/-- Serialization of one field under a property descriptor: a scalar
directly; a list as its count followed by its items. -/
def encField (M : EncMode β) : PropertyDescriptor → FieldData → List β
  | .scalar _ ty, .scalarP p => M.enc ty p
  | .list _ cty ity, .listP ps => M.enc cty ps.length ++ (ps.map (M.enc ity)).flatten
  | _, _ => []

/-- Serialization of one row: its fields in declared order. -/
def encRow (M : EncMode β) (props : List PropertyDescriptor) (fds : List FieldData) : List β :=
  (List.zipWith (encField M) props fds).flatten

/-- Serialization of an element's rows. -/
def encRows (M : EncMode β) (props : List PropertyDescriptor)
    (rowsD : List (List FieldData)) : List β :=
  (rowsD.map (encRow M props)).flatten

/-- Serialization of a whole data section, element by element. -/
def encElems (M : EncMode β) : List PlyElement → List (List (List FieldData)) → List β
  | [], _ => []
  | _ :: _, [] => []
  | e :: es, rd :: rds => encRows M e.properties rd ++ encElems M es rds

/-- Semantic field a decoder recovers from a serialized field. -/
def fieldValue : PropertyDescriptor → FieldData → String × Field
  | .scalar n ty, .scalarP p => (n, .scalar (valueOf ty p))
  | .list n _ ity, .listP ps => (n, .flist (ps.map (valueOf ity)))
  | .scalar n _, .listP _ => (n, .scalar 0)
  | .list n _ _, .scalarP _ => (n, .flist [])

/-- Semantic row recovered from a serialized row. -/
def rowValue (props : List PropertyDescriptor) (fds : List FieldData) : Row :=
  List.zipWith fieldValue props fds

/-- Semantic rows of one element. -/
def rowsValue (props : List PropertyDescriptor) (rowsD : List (List FieldData)) : List Row :=
  rowsD.map (rowValue props)

/-- Semantic element groups of a whole data section. -/
def elemsValue : List PlyElement → List (List (List FieldData)) → List (String × List Row)
  | [], _ => []
  | _ :: _, [] => []
  | e :: es, rd :: rds => (e.name, rowsValue e.properties rd) :: elemsValue es rds

/-- Wellformedness of one field against its descriptor: patterns fit the
declared widths, and a list's count field round-trips to the list's
length. -/
def propWF : PropertyDescriptor → FieldData → Prop
  | .scalar _ ty, .scalarP p => p < 2 ^ (8 * ty.byteWidth)
  | .list _ cty ity, .listP ps =>
      Int.toNat ⌊valueOf cty ps.length⌋ = ps.length ∧
        ps.length < 2 ^ (8 * cty.byteWidth) ∧ ∀ q ∈ ps, q < 2 ^ (8 * ity.byteWidth)
  | _, _ => False

/-- Wellformedness of a data section against its schema: per element, the
row count matches the declared count and every field fits its
descriptor. -/
def schemaWF (es : List PlyElement) (ed : List (List (List FieldData))) : Prop :=
  List.Forall₂ (fun e rd => rd.length = e.count ∧
    ∀ r ∈ rd, List.Forall₂ propWF e.properties r) es ed

theorem decodeItems_enc (M : EncMode β) (ity : ScalarType) (ps : List Nat) (rest : List β)
    (h : ∀ q ∈ ps, q < 2 ^ (8 * ity.byteWidth)) :
    decodeItems ity ps.length (M.wrap ((ps.map (M.enc ity)).flatten ++ rest)) =
      some (ps.map (valueOf ity), M.wrap rest) := by
  induction ps generalizing rest with
  | nil => simp [decodeItems]
  | cons q ps ih =>
    simp only [List.map_cons, List.flatten_cons, List.append_assoc, List.length_cons]
    rw [decodeItems, M.dec_ok ity q _ (h q (by simp))]
    simp [Option.bind_eq_bind, Option.some_bind, ih rest fun x hx => h x (by simp [hx])]

theorem decodeProp_enc (M : EncMode β) (pd : PropertyDescriptor) (fd : FieldData)
    (rest : List β) (h : propWF pd fd) :
    decodeProp pd (M.wrap (encField M pd fd ++ rest)) = some (fieldValue pd fd, M.wrap rest) := by
  cases pd with
  | scalar n ty =>
    cases fd with
    | scalarP p => simp [encField, decodeProp, M.dec_ok ty p rest h, fieldValue]
    | listP ps => exact absurd h (by simp [propWF])
  | list n cty ity =>
    cases fd with
    | scalarP p => exact absurd h (by simp [propWF])
    | listP ps =>
      obtain ⟨hcount, hclen, hitems⟩ := h
      simp only [encField, List.append_assoc]
      rw [decodeProp, M.dec_ok cty ps.length _ hclen]
      simp only [Option.bind_eq_bind, Option.some_bind, hcount,
        decodeItems_enc M ity ps rest hitems, fieldValue]
      rfl

theorem decodeRow_enc (M : EncMode β) (props : List PropertyDescriptor)
    (fds : List FieldData) (rest : List β) (h : List.Forall₂ propWF props fds) :
    decodeRow props (M.wrap (encRow M props fds ++ rest)) =
      some (rowValue props fds, M.wrap rest) := by
  induction h generalizing rest with
  | nil => simp [decodeRow, encRow, rowValue]
  | @cons pd fd props' fds' hpf htail ih =>
    simp only [encRow, List.zipWith_cons_cons, List.flatten_cons, List.append_assoc]
    rw [decodeRow, decodeProp_enc M pd fd _ hpf]
    simp only [Option.bind_eq_bind, Option.some_bind]
    rw [show ((List.zipWith (encField M) props' fds').flatten ++ rest) =
      (encRow M props' fds' ++ rest) from rfl, ih rest]
    simp [rowValue]

theorem decodeRows_enc (M : EncMode β) (props : List PropertyDescriptor)
    (rowsD : List (List FieldData)) (rest : List β)
    (h : ∀ r ∈ rowsD, List.Forall₂ propWF props r) :
    decodeRows rowsD.length props (M.wrap (encRows M props rowsD ++ rest)) =
      some (rowsValue props rowsD, M.wrap rest) := by
  induction rowsD generalizing rest with
  | nil => simp [decodeRows, encRows, rowsValue]
  | cons r rows ih =>
    simp only [encRows, List.map_cons, List.flatten_cons, List.append_assoc, List.length_cons]
    rw [decodeRows, decodeRow_enc M props r _ (h r (by simp))]
    simp only [Option.bind_eq_bind, Option.some_bind]
    rw [show ((rows.map (encRow M props)).flatten ++ rest) =
      (encRows M props rows ++ rest) from rfl, ih rest fun x hx => h x (by simp [hx])]
    simp [rowsValue]

theorem decodeElems_enc (M : EncMode β) (es : List PlyElement)
    (ed : List (List (List FieldData))) (rest : List β) (h : schemaWF es ed) :
    decodeElems es (M.wrap (encElems M es ed ++ rest)) =
      some (elemsValue es ed, M.wrap rest) := by
  induction h generalizing rest with
  | nil => simp [decodeElems, encElems, elemsValue]
  | @cons e rd es' ed' hpair htail ih =>
    obtain ⟨hlen, hwf⟩ := hpair
    simp only [encElems, List.append_assoc, elemsValue]
    rw [decodeElems, ← hlen, decodeRows_enc M e.properties rd _ hwf]
    simp only [Option.bind_eq_bind, Option.some_bind]
    rw [ih rest]
    simp

/-- C7: a mesh — a schema together with the raw field patterns of every
row — serialized once as an ASCII PLY payload and once as a binary PLY
payload of either endianness is read back to identical vertices, indices,
normals, UV and color arrays. -/
theorem ascii_binary_roundtrip (es : List PlyElement) (ed : List (List (List FieldData)))
    (isLE : Bool) (fl : Flags) (h : schemaWF es ed) :
    load_ply ⟨es, .asc (encElems ascMode es ed)⟩ fl =
      load_ply ⟨es, .bin isLE (encElems (binMode isLE) es ed)⟩ fl := by
  have h1 := decodeElems_enc ascMode es ed [] h
  have h2 := decodeElems_enc (binMode isLE) es ed [] h
  rw [List.append_nil] at h1 h2
  rw [show (⟨es, .asc (encElems ascMode es ed)⟩ : PlyFile) =
      ⟨es, ascMode.wrap (encElems ascMode es ed)⟩ from rfl,
    show (⟨es, .bin isLE (encElems (binMode isLE) es ed)⟩ : PlyFile) =
      ⟨es, (binMode isLE).wrap (encElems (binMode isLE) es ed)⟩ from rfl]
  simp [load_ply, h1, h2]

/-- A one-triangle mesh schema with integer-typed coordinates, used by
the closed round-trip witness. -/
def rtElems : List PlyElement :=
  [⟨"vertex", 2, [.scalar "x" .uint8, .scalar "y" .uint8, .scalar "z" .uint8]⟩,
   ⟨"face", 1, [.list "vertex_indices" .uint8 .uint8]⟩]

/-- Field patterns for `rtElems`: two points and one triangle. -/
def rtData : List (List (List FieldData)) :=
  [[[.scalarP 1, .scalarP 2, .scalarP 3], [.scalarP 4, .scalarP 5, .scalarP 6]],
   [[.listP [0, 1, 1]]]]

/-- Closed instance of `ascii_binary_roundtrip` on a concrete mesh. -/
theorem ascii_binary_roundtrip_witness :
    load_ply ⟨rtElems, .asc (encElems ascMode rtElems rtData)⟩ ⟨true, true, true⟩ =
      load_ply ⟨rtElems, .bin false (encElems (binMode false) rtElems rtData)⟩
        ⟨true, true, true⟩ :=
  ascii_binary_roundtrip rtElems rtData false ⟨true, true, true⟩ (by
    refine List.Forall₂.cons ⟨rfl, ?_⟩ (List.Forall₂.cons ⟨rfl, ?_⟩ List.Forall₂.nil)
    · intro r hr
      simp only [List.mem_cons, List.not_mem_nil, or_false] at hr
      rcases hr with rfl | rfl <;>
        exact List.Forall₂.cons (by simp only [propWF]; decide)
          (List.Forall₂.cons (by simp only [propWF]; decide)
            (List.Forall₂.cons (by simp only [propWF]; decide) List.Forall₂.nil))
    · intro r hr
      simp only [List.mem_cons, List.not_mem_nil, or_false] at hr
      rcases hr with rfl
      exact List.Forall₂.cons (by simp only [propWF]; decide) List.Forall₂.nil)

end Pyminiply
